import Mathlib

/-!
# Verification of the `conman` task-farming runtime

Shallow embedding of the core of the `conman` repository (files
`conman/conman.py`, `conman/coordinator.py`, `conman/utils.py`) and proofs
about the claims of its specification.

Conventions used throughout:
* Python byte strings are `List Nat` (one `Nat` per byte).
* Python values flowing through the messaging layer are `PyVal`:
  a byte string, a text string, or any other (picklable) object,
  abstracted by a `Nat` identifier.
* The external library functions used by the source (`pickle.dumps` /
  `pickle.loads`, `bz2.compress` / `bz2.decompress`, `str.encode('utf-8')` /
  `bytes.decode('utf-8')`) are not part of the repository; they are
  abstracted into an `PyExt` bundle of functions.  The round-trip laws they
  satisfy are stated in `PyExtGood` and taken as hypotheses; a concrete
  executable instance `extW` is provided for evaluation.
* Fallible Python code (library calls that raise, `struct.unpack` on a
  short buffer, `del list[0]` on an empty list, `socket.send` of a
  non-bytes value) is modelled with `Option`: `none` means the Python
  call raises.
-/

/-- A byte of a Python byte string (value of `bytes[i]`). -/
abbrev Byte := Nat

/-- A Python value as seen by the messaging layer of `conman.py`:
`pack` distinguishes exactly three cases - `bytes`/`bytearray`, `str`,
and everything else (which it pickles).  Arbitrary other objects are
abstracted by a `Nat` identifier. -/
inductive PyVal : Type where
  | bytes (bs : List Byte)
  | str (s : String)
  | obj (o : Nat)
deriving DecidableEq, Repr

/-- The external (standard-library) functions the source calls:
`pickle.dumps`/`pickle.loads`, `bz2.compress`/`bz2.decompress` and
UTF-8 `str.encode`/`bytes.decode`.  They are not code of this repository,
so they are abstracted; `ploads`, `decompress` and `udec` are `Option`
valued because the Python originals raise on malformed input. -/
structure PyExt : Type where
  pdumps : PyVal → List Byte
  ploads : List Byte → Option PyVal
  compress : List Byte → List Byte
  decompress : List Byte → Option (List Byte)
  uenc : String → List Byte
  udec : List Byte → Option String

/-- The round-trip contracts of the external libraries: unpickling inverts
pickling, decompression inverts compression, UTF-8 decoding inverts
encoding. -/
structure PyExtGood (e : PyExt) : Prop where
  pickle_rt : ∀ v, e.ploads (e.pdumps v) = some v
  bz2_rt : ∀ b, e.decompress (e.compress b) = some b
  utf8_rt : ∀ s, e.udec (e.uenc s) = some s

/-- `struct.pack('L', n)`: the eight little-endian bytes of an unsigned
64-bit integer. -/
def le8 (n : Nat) : List Byte :=
  [n % 256, n / 256 % 256, n / 256 ^ 2 % 256, n / 256 ^ 3 % 256,
   n / 256 ^ 4 % 256, n / 256 ^ 5 % 256, n / 256 ^ 6 % 256, n / 256 ^ 7 % 256]

/-- `struct.pack('?', b)`: one byte, `1` for `True` and `0` for `False`. -/
def b2y (b : Bool) : Byte := if b then 1 else 0

/-- `Conman.pack` (conman.py lines 210-308).  Builds the wire frame:
an 8-byte little-endian size (`len(payload)+4`), four header flag bytes
(`command`, `compressed`, `pickled`, `string`), then the payload.
Bytes pass through; strings are UTF-8 encoded; anything else is pickled
(the pickle protocol version argument does not change the round-trip
contract and is abstracted away by `PyExt`).  The payload is compressed
when `compressArg` is true.  `pkld` models the `pkld` keyword argument,
whose default is the computed pickled status. -/
def pack (e : PyExt) (command compressArg : Bool) (pkld : Option Bool) (msg : PyVal) :
    List Byte :=
  let enc : List Byte × Bool × Bool :=
    match msg with
    | PyVal.bytes bs => (bs, false, false)
    | PyVal.str s => (e.uenc s, true, false)
    | PyVal.obj o => (e.pdumps (PyVal.obj o), false, true)
  let data := if compressArg then e.compress enc.1 else enc.1
  le8 (data.length + 4) ++
    b2y command :: b2y compressArg :: b2y (pkld.getD enc.2.2) :: b2y enc.2.1 :: data

/-- `Conman.unpack` (conman.py lines 310-341).  Reads the four flag bytes
from `message[0:4]` (raising, i.e. `none`, when fewer than four bytes are
given), decompresses if the compressed flag is set, then unpickles, or
UTF-8 decodes, or returns raw bytes.  Mirrors the source exactly: in
particular the `length_prefix` parameter of the source is ignored by the
source body (the flags are always read from `message[0:4]`), so it does
not appear here. -/
def unpack (e : PyExt) (msg : List Byte) : Option (PyVal × Bool) :=
  match msg with
  | b0 :: b1 :: b2 :: b3 :: rest =>
    let command : Bool := b0 != 0
    let compressed : Bool := b1 != 0
    let pickled : Bool := b2 != 0
    let string : Bool := b3 != 0
    (if compressed then e.decompress rest else some rest).bind fun m =>
      if pickled then (e.ploads m).bind fun v => some (v, command)
      else if string then (e.udec m).bind fun s => some (PyVal.str s, command)
      else some (PyVal.bytes m, command)
  | _ => none

/-! ## The paging store (`conman/utils.py`)

A paging store is a temporary file plus a list of entry lengths
(the "length journal").  The file is modelled by its contents and the
current seek position. -/

/-- A paging store: the page file's contents, the current file position,
and the length journal (`journal : list [int]` in the source). -/
structure PageStore : Type where
  data : List Byte
  pos : Nat
  lens : List Nat
deriving DecidableEq, Repr

/-- `file.write(bs)` at position `pos`: overwrite from `pos` (zero-filling
a gap if `pos` is past the end, as POSIX does) and advance. -/
def fileWrite (data : List Byte) (pos : Nat) (bs : List Byte) : List Byte :=
  data.take pos ++ List.replicate (pos - data.length) 0 ++ bs ++ data.drop (pos + bs.length)

/-- The sequence of `page.read(i)` results for the lengths in `lens`,
starting at position `p`: each read returns the bytes available (up to
the requested count) and advances the position by the bytes actually
read. -/
def readChunks (data : List Byte) (p : Nat) : List Nat → List (List Byte)
  | [] => []
  | n :: ns =>
    let chunk := (data.drop p).take n
    chunk :: readChunks data (p + chunk.length) ns

/-- `[pickle.loads(i) for i in results]`: unpickle every chunk, raising
(`none`) on the first failure. -/
def ploadsAll (e : PyExt) : List (List Byte) → Option (List PyVal)
  | [] => some []
  | b :: bs => (e.ploads b).bind fun v => (ploadsAll e bs).bind fun vs => some (v :: vs)

/-- `b''.join(entries)` requires every entry to be a byte string; a
non-bytes entry makes the Python `join` raise. -/
def toBytesAll : List PyVal → Option (List (List Byte))
  | [] => some []
  | PyVal.bytes b :: vs => (toBytesAll vs).bind fun bs => some (b :: bs)
  | _ => none

/-- `save_to_page(entries, page, journal, as_pickle)` (utils.py lines 9-35):
pickle the entries when `asPickle` is set (otherwise they must already be
byte strings), extend the length journal with the entry lengths, and write
the concatenation at the current file position. -/
def saveToPage (e : PyExt) (asPickle : Bool) (entries : List PyVal) (st : PageStore) :
    Option PageStore :=
  (if asPickle then some (entries.map e.pdumps) else toBytesAll entries).bind fun blobs =>
    some { data := fileWrite st.data st.pos blobs.flatten
           pos := st.pos + blobs.flatten.length
           lens := st.lens ++ blobs.map List.length }

/-- `load_from_page(page, journal, unpickle)` (utils.py lines 38-70):
seek to 0, read one chunk per journal entry, optionally unpickle each,
then clear the journal, truncate the file to length zero and seek back
to the start.  Returns the entries together with the resulting (empty)
store. -/
def loadFromPage (e : PyExt) (unpickle : Bool) (st : PageStore) :
    Option (List PyVal × PageStore) :=
  let chunks := readChunks st.data 0 st.lens
  (if unpickle then ploadsAll e chunks else some (chunks.map PyVal.bytes)).bind fun vs =>
    some (vs, ⟨[], 0, []⟩)

/-- A store whose file is exactly the concatenation of the given blobs,
with the position at the end: the shape produced by saving onto a fresh
store. -/
def mkStore (blobs : List (List Byte)) : PageStore :=
  ⟨blobs.flatten, blobs.flatten.length, blobs.map List.length⟩

/-! ## Endpoints (`Conman`, conman.py lines 21-551) -/

/-- The state of a `Conman` endpoint relevant to handshake and connection
claims: whether the listening socket is bound (`getsockname()[1] != 0`),
the `_is_server` flag, the negotiated `PROTO` versions, the process's
`pickle.HIGHEST_PROTOCOL`, and the recorded buffer sizes `_RCVBUF` /
`_SNDBUF` (integers in practice; the kernel clamp is a parameter here). -/
structure Conman : Type where
  bound : Bool
  isServer : Bool
  protoConman : Nat
  protoPickle : Nat
  highestPickle : Nat
  rcvbuf : Nat
  sndbuf : Nat
deriving DecidableEq, Repr

/-- A protocol-descriptor handshake message:
`{'CONMAN': ..., 'PICKLE': ..., 'BUFSZ': ...}`. -/
structure HandshakeMsg : Type where
  conman : Nat
  pickle : Nat
  bufsz : Nat
deriving DecidableEq, Repr

/-- `Conman.__init__` (conman.py lines 57-74): `PROTO = {'PICKLE': 3,
'CONMAN': 1}`, `_SNDBUF = 0`, `_is_server = False`; `__setup` records
the (kernel-clamped) receive buffer size, a parameter here. -/
def conmanInit (highestPickle rcvbuf : Nat) : Conman :=
  { bound := false, isServer := false, protoConman := 1, protoPickle := 3,
    highestPickle := highestPickle, rcvbuf := rcvbuf, sndbuf := 0 }

/-- `Conman.build_handshake` (conman.py lines 391-412): sends the current
`PROTO['CONMAN']`, the process's `pickle.HIGHEST_PROTOCOL`, and `_RCVBUF`. -/
def buildHandshake (c : Conman) : HandshakeMsg :=
  { conman := c.protoConman, pickle := c.highestPickle, bufsz := c.rcvbuf }

/-- `Conman.resolve_handshake` (conman.py lines 414-433): for each key of
`PROTO`, take the minimum of the incoming value and the locally rebuilt
handshake value, and record the peer's `BUFSZ` as `_SNDBUF`. -/
def resolveHandshake (c : Conman) (h : HandshakeMsg) : Conman :=
  { c with protoConman := min h.conman (buildHandshake c).conman,
           protoPickle := min h.pickle (buildHandshake c).pickle,
           sndbuf := h.bufsz }

/-! ## Journaled endpoints (`Conjour`, conman.py lines 554-693) -/

/-- A `Conjour` journaled endpoint: a `Conman` plus the `idle` flag, the
in-memory send-log `data_log`, and the on-disk journal paging store. -/
structure Conjour extends Conman where
  idle : Bool
  dataLog : List Nat
  journal : PageStore
deriving DecidableEq, Repr

/-- `Conjour.__init__` (conman.py lines 563-568): `idle = True`,
`data_log = []`, fresh empty journal file. -/
def conjourInit (highestPickle rcvbuf : Nat) : Conjour :=
  { toConman := conmanInit highestPickle rcvbuf,
    idle := true, dataLog := [], journal := ⟨[], 0, []⟩ }

/-- `socket.CMSG_SPACE(n)` on Linux/x86-64: `n` aligned up to 8 plus the
16-byte `cmsghdr`. -/
def cmsgSpace (n : Nat) : Nat := 8 * ((n + 7) / 8) + 16

/-- `Conjour.free_space` (conman.py lines 570-595).  The source computes
`n = 1 - (not self._is_server)` - that is `n = 1` when `_is_server` is
true and `n = 0` otherwise - then returns
`max(int(self._SNDBUF * 0.95) - sum(self.data_log[n:]), 0)`.
The float truncation `int(B * 0.95)` is modelled as the exact floor
`19 * B / 20`. -/
def Conjour.freeSpace (c : Conjour) : Int :=
  let n : Nat := 1 - (if c.isServer then 0 else 1)
  max ((19 * (c.sndbuf : Int)) / 20 - ((c.dataLog.drop n).sum : Int)) 0

/-- What the specification says `free_space` is: the same budget but with
`start = 0` if this endpoint is the server-side view, else `1` (the
coordinator-side budget excluding the first outstanding frame).  Stated
from the spec's words for comparison with `Conjour.freeSpace` above. -/
def freeSpaceClaimed (c : Conjour) : Int :=
  let start : Nat := if c.isServer then 0 else 1
  max ((19 * (c.sndbuf : Int)) / 20 - ((c.dataLog.drop start).sum : Int)) 0

/-- `Conjour.send_message` (conman.py lines 597-639).  Packs the message
unless it is flagged as already `packed` (an already-packed message must
be a byte string or the socket write raises); sends it; and for
non-command messages clears `idle`, appends `CMSG_SPACE(len(message))`
to `data_log`, and appends the frame to the journal paging store
(with `save_to_page`'s default `as_pickle=True`). -/
def Conjour.sendMessage (e : PyExt) (c : Conjour) (command packed compressArg : Bool)
    (pkld : Option Bool) (msg : PyVal) : Option Conjour :=
  (if packed then
      match msg with
      | PyVal.bytes bs => some bs
      | _ => none
    else some (pack e command compressArg pkld msg)).bind fun frame =>
  if command then some c
  else
    (saveToPage e true [PyVal.bytes frame] c.journal).bind fun j =>
      some { c with idle := false,
                    dataLog := c.dataLog ++ [cmsgSpace frame.length],
                    journal := j }

/-- `Conjour.await_message` (conman.py lines 641-683), its state effect
after a message has been successfully read from the socket: `del
data_log[0]` (raising on an empty list), rewrite the journal to its
entries minus the first (`save_to_page(load_from_page(*journal)[1:],
*journal)`), and set `idle` when the journal's length journal is empty.
The bytes read from the wire do not affect this state change and are not
modelled. -/
def Conjour.awaitMessage (e : PyExt) (c : Conjour) : Option Conjour :=
  match c.dataLog with
  | [] => none
  | _ :: rest =>
    (loadFromPage e true c.journal).bind fun pr =>
      (saveToPage e true (pr.1.drop 1) pr.2).bind fun j =>
        some { c with dataLog := rest,
                      journal := j,
                      idle := if j.lens.length = 0 then true else c.idle }

/-- `Conman.accept_connection` (conman.py lines 445-484), specialised to a
`Conjour` listener as the coordinator uses it (`self.__class__` is
`Conjour` there): on an unbound socket, bind, listen and set
`_is_server = True` on the listener; then build a fresh child endpoint
for the accepted connection (its `__init__` leaves `_is_server = False`)
and run the handshake on the child.  The child's `pickle.HIGHEST_PROTOCOL`
and clamped `_RCVBUF` are parameters. -/
def acceptConnection (listener : Conjour) (peer : HandshakeMsg)
    (childHighestPickle childRcvbuf : Nat) : Conjour × Conjour :=
  let listener1 :=
    if listener.bound then listener
    else { listener with bound := true, isServer := true }
  let child0 := conjourInit childHighestPickle childRcvbuf
  let child := { child0 with toConman := resolveHandshake child0.toConman peer }
  (listener1, child)

/-! ## The coordinator (`coordinator.py`) -/

/-- Coordinator state relevant to the purge claim: the `handshake` and
`compress` options, the worker list (workers are identified by a `Nat`
identity, since Python's `list.remove` compares socket objects by
identity), the two paging stores, and the lost-worker counter. -/
structure Coordinator : Type where
  handshake : Bool
  compress : Bool
  workers : List (Nat × Conjour)
  jobPage : PageStore
  resPage : PageStore
  lostCount : Nat
deriving DecidableEq, Repr

/-- `[lost_worker.unpack(job)[0] for job in jobs]`: every loaded journal
entry must be a byte string (which `load_from_page(..., unpickle=False)`
guarantees); `unpack` each and keep the message part.  A failing `unpack`
(e.g. a decompression error) raises, i.e. `none`. -/
def unpackAll (e : PyExt) : List PyVal → Option (List PyVal)
  | [] => some []
  | PyVal.bytes bs :: vs =>
    (unpack e bs).bind fun r => (unpackAll e vs).bind fun rs => some (r.1 :: rs)
  | _ => none

/-- `Coordinator._purge_lost_worker` (coordinator.py lines 382-404):
remove the worker from the list (`list.remove`: first entry with the same
identity), load the worker's journal with `unpickle=False`, `unpack` each
entry when `handshake` is enabled, save the result to the pending-jobs
page with `as_pickle=self.handshake`, kill the worker, and increment the
lost counter. -/
def purgeLostWorker (e : PyExt) (co : Coordinator) (w : Nat × Conjour) :
    Option Coordinator :=
  let workers1 := co.workers.eraseP (fun x => x.1 == w.1)
  (loadFromPage e false w.2.journal).bind fun pr =>
    (if co.handshake then unpackAll e pr.1 else some pr.1).bind fun jobs =>
      (saveToPage e co.handshake jobs co.jobPage).bind fun jp =>
        some { co with workers := workers1, jobPage := jp,
                       lostCount := co.lostCount + 1 }

/-- Outcome of `Coordinator.mount`'s argument handling (coordinator.py
lines 158-201). -/
inductive MountCheck : Type where
  | typeError
  | valueError
  | proceed (pollTimeout : Option Int) (awaitN : Int)
deriving DecidableEq, Repr

/-- `Coordinator.mount(await_n, timeout)`, argument handling before the
accept loop.  The source's first statement is `if await_n <= 0:`; with the
default `await_n=None`, Python 3 raises `TypeError` on the comparison
`None <= 0`.  With an integer `await_n <= 0` it raises `ValueError`.
Otherwise `poll_time_out = timeout if await_n else 0` and
`await_n = await_n if await_n else 0`, and the accept loop runs. -/
def mountCheck (awaitN : Option Int) (timeout : Option Int) : MountCheck :=
  match awaitN with
  | none => MountCheck.typeError
  | some n =>
    if n ≤ 0 then MountCheck.valueError
    else MountCheck.proceed (if n ≠ 0 then timeout else some 0) n

/-! ## `Coordinator.submit`'s idle pass (coordinator.py lines 235-244)

The pass is

```
while self.idle_workers and jobs:
    for worker, job in zip(self.idle_workers, jobs):
        worker.send_message(job, ...)
        jobs.remove(job)
    self.retrieve(to_page=True)
```

`zip` is a lazy iterator: at its `i`-th step it reads `jobs[i]` of the
*current* (already mutated) list, and the body then removes that element.
Workers and jobs are abstracted to identifiers; a send is recorded as a
(worker, job) pair and flips the worker's `idle` flag, exactly as
`Conjour.send_message` does for a non-command message.  The
`retrieve(to_page=True)` between rounds only drains incoming replies;
with no replies pending it does not change any worker's idleness, which
is how it is modelled here. -/

/-- A worker as the idle pass sees it: an identity and the `idle` flag. -/
structure SWorker : Type where
  wid : Nat
  idle : Bool
deriving DecidableEq, Repr

/-- One step of `zip(idle_workers, jobs)` with `jobs.remove(job)` in the
body: at step `i`, read `jobs[i]` from the current list (stop when the
iterator is exhausted), emit the pair, and remove the first occurrence of
that job value from the list.  Returns the pairs sent and the remaining
jobs. -/
def zipRemoveGo (i : Nat) (ws : List Nat) (js : List Nat) :
    List (Nat × Nat) × List Nat :=
  match ws with
  | [] => ([], js)
  | w :: ws1 =>
    match js[i]? with
    | none => ([], js)
    | some j =>
      let r := zipRemoveGo (i + 1) ws1 (js.erase j)
      ((w, j) :: r.1, r.2)

/-- One round of the idle pass: the `for worker, job in
zip(self.idle_workers, jobs)` loop over a snapshot `ws` of the idle
workers' identities. -/
def idleRound (ws : List Nat) (js : List Nat) : List (Nat × Nat) × List Nat :=
  zipRemoveGo 0 ws js

/-- The elements at even indices of a list. -/
def evens {α : Type} : List α → List α
  | [] => []
  | [x] => [x]
  | x :: _ :: rest => x :: evens rest

/-- The idle pass: repeat rounds while some worker is idle and jobs
remain; a worker that was sent a job becomes busy (`idle = False`).
`fuel` bounds the number of rounds (each round sends at least one job, so
`jobs.length + 1` rounds always suffice).  Returns the (worker, job)
pairs sent, the final worker states, and the jobs left unsent. -/
def idlePass : Nat → List SWorker → List Nat →
    List (Nat × Nat) × List SWorker × List Nat
  | 0, ws, js => ([], ws, js)
  | Nat.succ fuel, ws, js =>
    let idleIds := (ws.filter (fun w => w.idle)).map (fun w => w.wid)
    if idleIds = [] ∨ js = [] then ([], ws, js)
    else
      let r := idleRound idleIds js
      let sent := r.1.map Prod.fst
      let ws1 := ws.map fun w =>
        if sent.contains w.wid then { w with idle := false } else w
      let rest := idlePass fuel ws1 r.2
      (r.1 ++ rest.1, rest.2)

/-! ## Operation traces over a journaled endpoint

For the send-log/journal invariant, a `Conjour` endpoint is driven by a
sequence of completed operations: `send` (a `send_message` call with its
flags and message) and `recv` (a completed `await_message` call; the
message read from the wire does not affect the journal state). -/

/-- A completed endpoint operation. -/
inductive ConjOp : Type where
  | send (command packed compressArg : Bool) (msg : PyVal)
  | recv
deriving DecidableEq, Repr

/-- Run a sequence of completed operations on a journaled endpoint;
`none` when any of them raises. -/
def conjExec (e : PyExt) (c : Conjour) : List ConjOp → Option Conjour
  | [] => some c
  | ConjOp.send cmd pk cp m :: ops =>
    (Conjour.sendMessage e c cmd pk cp none m).bind fun c1 => conjExec e c1 ops
  | ConjOp.recv :: ops =>
    (Conjour.awaitMessage e c).bind fun c1 => conjExec e c1 ops

/-- The number of non-command sends in a trace. -/
def countSends : List ConjOp → Nat
  | [] => 0
  | ConjOp.send cmd _ _ _ :: ops => (if cmd then 0 else 1) + countSends ops
  | ConjOp.recv :: ops => countSends ops

/-- The number of completed receives in a trace. -/
def countRecvs : List ConjOp → Nat
  | [] => 0
  | ConjOp.send _ _ _ _ :: ops => countRecvs ops
  | ConjOp.recv :: ops => 1 + countRecvs ops

/-! ## A concrete executable instance of the external libraries

Used only to evaluate the model on concrete inputs (counterexamples and
witnesses).  Each function is a simple injective coding satisfying the
`PyExtGood` round-trip laws. -/

/-- Witness UTF-8 stand-in: a string as the list of its characters'
code points. -/
def uencW (s : String) : List Byte := s.data.map Char.toNat

/-- Inverse of `uencW`. -/
def udecW (bs : List Byte) : Option String := some (String.mk (bs.map Char.ofNat))

/-- Witness pickle stand-in: a tag byte followed by a payload. -/
def pdumpsW : PyVal → List Byte
  | PyVal.bytes bs => 0 :: bs
  | PyVal.str s => 1 :: uencW s
  | PyVal.obj o => 2 :: List.replicate o 3

/-- Inverse of `pdumpsW`. -/
def ploadsW : List Byte → Option PyVal
  | 0 :: bs => some (PyVal.bytes bs)
  | 1 :: bs => (udecW bs).bind fun s => some (PyVal.str s)
  | 2 :: bs => some (PyVal.obj bs.length)
  | _ => none

/-- The concrete external-library bundle: compression prepends a `0`
marker byte. -/
def extW : PyExt :=
  { pdumps := pdumpsW, ploads := ploadsW,
    compress := fun b => 0 :: b,
    decompress := fun b => match b with | 0 :: t => some t | _ => none,
    uenc := uencW, udec := udecW }

/-! ## Concrete states used by counterexamples and witnesses -/

/-- A coordinator-side journaled endpoint (`_is_server = False`, as
`accept_connection` constructs them) with `_SNDBUF = 100` and two
outstanding frames of logged sizes 10 and 20. -/
def cStart : Conjour :=
  { conjourInit 0 0 with
    sndbuf := 100
    dataLog := [10, 20] }

/-- The wire frame of the job `b'A'` (byte 65), packed uncompressed and
without the command flag, exactly as the coordinator sends it. -/
def fA : List Byte := pack extW false false none (PyVal.bytes [65])

/-- A worker endpoint that has sent the single frame `fA`: its send-log
holds the frame's kernel-accounted size and its journal holds the frame,
as `Conjour.send_message` recorded them. -/
def wLost : Nat × Conjour :=
  (1, { conjourInit 0 0 with
        idle := false
        dataLog := [cmsgSpace fA.length]
        journal := mkStore [extW.pdumps (PyVal.bytes fA)] })

/-- A handshake-enabled coordinator owning only `wLost`. -/
def coLost : Coordinator :=
  { handshake := true, compress := false, workers := [wLost],
    jobPage := ⟨[], 0, []⟩, resPage := ⟨[], 0, []⟩, lostCount := 0 }

/-- A journaled endpoint with `_SNDBUF = 0`: its budget is exhausted
(free_space already 0). -/
def cZero : Conjour := conjourInit 0 0

/-- The state of `cZero` after `send_message(b'A')`: the frame is 13
bytes, `CMSG_SPACE(13) = 32`, and the journal holds the pickled frame. -/
def cZeroAfter : Conjour :=
  { conjourInit 0 0 with
    idle := false
    dataLog := [32]
    journal := ⟨[0, 5, 0, 0, 0, 0, 0, 0, 0, 0, 0, 0, 0, 65], 14, [14]⟩ }

/-- A journaled endpoint with positive budget (`_SNDBUF = 1000`). -/
def cBudget : Conjour := { conjourInit 0 0 with sndbuf := 1000 }

/-- The state of `cBudget` after `send_message(b'A')`. -/
def cBudgetAfter : Conjour := { cZeroAfter with sndbuf := 1000 }

/-- A trace: one non-command send of `b'A'` followed by one completed
receive. -/
def opsSendRecv : List ConjOp :=
  [ConjOp.send false false false (PyVal.bytes [65]), ConjOp.recv]

/-- Two idle workers, identities 0 and 1. -/
def wsIdle : List SWorker := [⟨0, true⟩, ⟨1, true⟩]

/-- A non-empty well-formed paging store: one saved entry, the pickle of
`b'A'` (`extW` pickles it as `[0, 65]`). -/
def stPrior : PageStore := ⟨[0, 65], 2, [2]⟩

/-- A journaled endpoint used to evaluate the from-index-0 budget:
`_is_server = False`, `_SNDBUF = 40`, two logged frames. -/
def cFromZero : Conjour :=
  { conjourInit 0 0 with
    sndbuf := 40
    dataLog := [6, 7] }

/-- The successor state of a non-command `Conjour.send_message` that sent
the wire bytes `frame` and rewrote the journal to `J`: `idle` cleared,
`CMSG_SPACE(len(frame))` appended to the send-log. -/
def sendSucc (c : Conjour) (frame : List Byte) (J : PageStore) : Conjour :=
  { c with
    idle := false
    dataLog := c.dataLog ++ [cmsgSpace frame.length]
    journal := J }

/-- The successor state of a completed `Conjour.await_message` that popped
the send-log head (leaving `rest`) and rewrote the journal to `J`. -/
def awaitSucc (c : Conjour) (rest : List Nat) (J : PageStore) : Conjour :=
  { c with
    dataLog := rest
    journal := J
    idle := if J.lens.length = 0 then true else c.idle }

/-! ## Helper lemmas -/

/-- The concrete external-library bundle satisfies the round-trip laws. -/
theorem extW_good : PyExtGood extW := by
  refine ⟨?_, ?_, ?_⟩
  · intro v
    cases v with
    | bytes bs => rfl
    | str s =>
      cases s with
      | mk l =>
        simp only [extW, pdumpsW, ploadsW, udecW, uencW, List.map_map]
        rw [show (Char.ofNat ∘ Char.toNat) = id from funext Char.ofNat_toNat,
            List.map_id]
        rfl
    | obj o => simp [extW, pdumpsW, ploadsW]
  · intro b; rfl
  · intro s
    cases s with
    | mk l =>
      simp only [extW, udecW, uencW, List.map_map]
      rw [show (Char.ofNat ∘ Char.toNat) = id from funext Char.ofNat_toNat,
          List.map_id]

/-- Dropping the 8-byte length prefix of a frame. -/
theorem drop_le8 (n : Nat) (tail : List Byte) : (le8 n ++ tail).drop 8 = tail := by
  simp [le8]
theorem fileWrite_at_end (d bs : List Byte) : fileWrite d d.length bs = d ++ bs := by
  simp [fileWrite]

theorem readChunks_flatten_aux (bs : List (List Byte)) :
    ∀ pre : List Byte,
      readChunks (pre ++ bs.flatten) pre.length (bs.map List.length) = bs := by
  induction bs with
  | nil => intro pre; simp [readChunks]
  | cons b bs ih =>
    intro pre
    have h1 : (pre ++ (b :: bs).flatten).drop pre.length = b ++ bs.flatten := by
      simp [List.drop_left]
    have h2 : (b ++ bs.flatten).take b.length = b := List.take_left b bs.flatten
    simp only [List.map_cons, readChunks, h1, h2]
    have h3 : pre.length + b.length = (pre ++ b).length := by simp
    have h4 : pre ++ (b :: bs).flatten = (pre ++ b) ++ bs.flatten := by
      simp [List.append_assoc]
    rw [h3, h4, ih (pre ++ b)]

theorem readChunks_flatten (bs : List (List Byte)) :
    readChunks bs.flatten 0 (bs.map List.length) = bs := by
  have := readChunks_flatten_aux bs []
  simpa using this

theorem readChunks_split (ls : List Nat) :
    ∀ (p : Nat) (d t : List Byte) (ns : List Nat),
      p + ls.sum = d.length →
      readChunks (d ++ t) p (ls ++ ns) =
        readChunks d p ls ++ readChunks (d ++ t) d.length ns := by
  induction ls with
  | nil =>
    intro p d t ns hp
    simp at hp
    simp [readChunks, hp]
  | cons n ls ih =>
    intro p d t ns hp
    simp [List.sum_cons] at hp
    have hpn : p + n ≤ d.length := by omega
    have hdrop : (d ++ t).drop p = d.drop p ++ t := by
      rw [List.drop_append_eq_append_drop]
      have h0 : p - d.length = 0 := by omega
      simp [h0]
    have h1 : n - (d.drop p).length = 0 := by
      have : (d.drop p).length = d.length - p := List.length_drop p d
      omega
    have htake : (d.drop p ++ t).take n = (d.drop p).take n := by
      rw [List.take_append_eq_append_take, h1]
      simp
    have hlen : ((d.drop p).take n).length = n := by
      have : (d.drop p).length = d.length - p := List.length_drop p d
      simp [List.length_take]
      omega
    simp only [List.cons_append, readChunks, hdrop, htake, hlen, List.append_eq]
    rw [ih (p + n) d t ns (by omega)]

theorem ploadsAll_append (e : PyExt) (xs ys : List (List Byte))
    (as bs : List PyVal) (hx : ploadsAll e xs = some as)
    (hy : ploadsAll e ys = some bs) :
    ploadsAll e (xs ++ ys) = some (as ++ bs) := by
  induction xs generalizing as with
  | nil =>
    simp [ploadsAll] at hx
    simpa [hx] using hy
  | cons x xs ih =>
    simp only [ploadsAll, Option.bind_eq_bind] at hx ⊢
    cases hv : e.ploads x with
    | none => simp [hv] at hx
    | some v =>
      simp only [hv, Option.some_bind] at hx ⊢
      cases hrest : ploadsAll e xs with
      | none => simp [hrest] at hx
      | some vs =>
        simp only [hrest, Option.some_bind, Option.some_inj] at hx
        simp [List.cons_append, ih vs hrest, ← hx]

theorem ploadsAll_dumps (e : PyExt) (h : PyExtGood e) (vs : List PyVal) :
    ploadsAll e (vs.map e.pdumps) = some vs := by
  induction vs with
  | nil => rfl
  | cons v vs ih => simp [ploadsAll, h.pickle_rt, ih]
theorem saveToPage_mkStore (e : PyExt) (vs : List PyVal) (blobs : List (List Byte)) :
    saveToPage e true vs (mkStore blobs) =
      some (mkStore (blobs ++ vs.map e.pdumps)) := by
  have h1 : fileWrite blobs.flatten ((blobs.map List.length).sum)
      (vs.map e.pdumps).flatten = blobs.flatten ++ (vs.map e.pdumps).flatten := by
    have hlen : blobs.flatten.length = (blobs.map List.length).sum := by simp
    rw [← hlen]
    exact fileWrite_at_end _ _
  simp [saveToPage, mkStore, h1]

theorem loadFromPage_mkStore (e : PyExt) (h : PyExtGood e) (vs : List PyVal) :
    loadFromPage e true (mkStore (vs.map e.pdumps)) = some (vs, ⟨[], 0, []⟩) := by
  simp only [loadFromPage, mkStore]
  rw [readChunks_flatten (vs.map e.pdumps), ploadsAll_dumps e h vs]
  rfl
/-- C8 amended: on any well-formed paging store (file position at the
end, length journal covering the file exactly) whose entries unpickle to
`prior`, `save_to_page(xs)` followed by `load_from_page` returns `prior`
followed by `xs` in order, and afterwards the length journal is empty
and the file is truncated to length zero with its position reset. -/
theorem C8_page_round_trip_amended (e : PyExt) (h : PyExtGood e)
    (st : PageStore) (xs prior : List PyVal)
    (hpos : st.pos = st.data.length)
    (hsum : st.lens.sum = st.data.length)
    (hprior : ploadsAll e (readChunks st.data 0 st.lens) = some prior) :
    (saveToPage e true xs st).bind (fun st1 => loadFromPage e true st1) =
      some (prior ++ xs, ⟨[], 0, []⟩) := by
  have hw : fileWrite st.data st.pos (xs.map e.pdumps).flatten =
      st.data ++ (xs.map e.pdumps).flatten := by
    rw [hpos]; exact fileWrite_at_end _ _
  have hsave : saveToPage e true xs st =
      some ⟨st.data ++ (xs.map e.pdumps).flatten,
            st.pos + (xs.map e.pdumps).flatten.length,
            st.lens ++ (xs.map e.pdumps).map List.length⟩ := by
    simp [saveToPage, hw]
  have hsplit : readChunks (st.data ++ (xs.map e.pdumps).flatten) 0
      (st.lens ++ (xs.map e.pdumps).map List.length) =
      readChunks st.data 0 st.lens ++
        readChunks (st.data ++ (xs.map e.pdumps).flatten) st.data.length
          ((xs.map e.pdumps).map List.length) :=
    readChunks_split st.lens 0 st.data _ _ (by omega)
  have hnew : readChunks (st.data ++ (xs.map e.pdumps).flatten) st.data.length
      ((xs.map e.pdumps).map List.length) = xs.map e.pdumps :=
    readChunks_flatten_aux (xs.map e.pdumps) st.data
  have hload : loadFromPage e true
      (⟨st.data ++ (xs.map e.pdumps).flatten,
        st.pos + (xs.map e.pdumps).flatten.length,
        st.lens ++ (xs.map e.pdumps).map List.length⟩ : PageStore) =
      some (prior ++ xs, ⟨[], 0, []⟩) := by
    simp only [loadFromPage]
    rw [hsplit, hnew,
        ploadsAll_append e _ _ prior xs hprior (ploadsAll_dumps e h xs)]
    rfl
  rw [hsave, Option.some_bind, hload]
theorem sendMessage_noncmd_elim (e : PyExt) (c c1 : Conjour) (pk cp : Bool)
    (pkld : Option Bool) (m : PyVal)
    (hsm : Conjour.sendMessage e c false pk cp pkld m = some c1) :
    ∃ (frame : List Byte) (J : PageStore),
      saveToPage e true [PyVal.bytes frame] c.journal = some J ∧
      c1 = sendSucc c frame J := by
  simp only [Conjour.sendMessage, Bool.false_eq_true, if_false] at hsm
  cases pk with
  | false =>
    simp only [Bool.false_eq_true, if_false, Option.some_bind] at hsm
    cases hsv : saveToPage e true [PyVal.bytes (pack e false cp pkld m)] c.journal with
    | none => rw [hsv] at hsm; simp at hsm
    | some J =>
      rw [hsv] at hsm
      simp only [Option.some_bind, Option.some_inj] at hsm
      exact ⟨pack e false cp pkld m, J, hsv, by rw [← hsm]; rfl⟩
  | true =>
    cases m with
    | bytes bs =>
      simp only [eq_self_iff_true, if_true, Option.some_bind] at hsm
      cases hsv : saveToPage e true [PyVal.bytes bs] c.journal with
      | none => rw [hsv] at hsm; simp at hsm
      | some J =>
        rw [hsv] at hsm
        simp only [Option.some_bind, Option.some_inj] at hsm
        exact ⟨bs, J, hsv, by rw [← hsm]; rfl⟩
    | str s => simp at hsm
    | obj o => simp at hsm

theorem sendMessage_cmd_elim (e : PyExt) (c c1 : Conjour) (pk cp : Bool)
    (pkld : Option Bool) (m : PyVal)
    (hsm : Conjour.sendMessage e c true pk cp pkld m = some c1) : c1 = c := by
  cases pk with
  | false =>
    simp [Conjour.sendMessage] at hsm
    exact hsm.symm
  | true =>
    cases m <;> simp [Conjour.sendMessage] at hsm
    exact hsm.symm
theorem awaitMessage_elim (e : PyExt) (c c1 : Conjour)
    (hsm : Conjour.awaitMessage e c = some c1) :
    ∃ (d : Nat) (rest : List Nat) (pr : List PyVal × PageStore) (J : PageStore),
      c.dataLog = d :: rest ∧
      loadFromPage e true c.journal = some pr ∧
      saveToPage e true (pr.1.drop 1) pr.2 = some J ∧
      c1 = awaitSucc c rest J := by
  cases hdl : c.dataLog with
  | nil => simp [Conjour.awaitMessage, hdl] at hsm
  | cons d rest =>
    simp only [Conjour.awaitMessage, hdl] at hsm
    cases hld : loadFromPage e true c.journal with
    | none => rw [hld] at hsm; simp at hsm
    | some pr =>
      rw [hld] at hsm
      simp only [Option.some_bind] at hsm
      cases hsv : saveToPage e true (pr.1.drop 1) pr.2 with
      | none => rw [hsv] at hsm; simp at hsm
      | some J =>
        rw [hsv] at hsm
        simp only [Option.some_bind, Option.some_inj] at hsm
        exact ⟨d, rest, pr, J, rfl, rfl, hsv, by rw [← hsm]; rfl⟩
theorem conjExec_inv (e : PyExt) (h : PyExtGood e) :
    ∀ (ops : List ConjOp) (c : Conjour) (vs : List PyVal),
      c.journal = mkStore (vs.map e.pdumps) →
      c.dataLog.length = vs.length →
      ∀ cf, conjExec e c ops = some cf →
        cf.dataLog.length = cf.journal.lens.length ∧
        cf.dataLog.length + countRecvs ops = c.dataLog.length + countSends ops := by
  intro ops
  induction ops with
  | nil =>
    intro c vs hj hl cf hx
    simp [conjExec] at hx
    subst hx
    refine ⟨?_, by simp [countSends, countRecvs]⟩
    rw [hj, hl]
    simp [mkStore]
  | cons op ops ih =>
    intro c vs hj hl cf hx
    cases op with
    | send cmd pk cp m =>
      simp only [conjExec, Option.bind_eq_bind] at hx
      cases hsm : Conjour.sendMessage e c cmd pk cp none m with
      | none => simp [hsm] at hx
      | some c1 =>
        simp only [hsm, Option.some_bind] at hx
        cases cmd with
        | true =>
          have hc1 := sendMessage_cmd_elim e c c1 pk cp none m hsm
          subst hc1
          have hrec := ih c1 vs hj hl cf hx
          refine ⟨hrec.1, ?_⟩
          have h2 := hrec.2
          simp only [countSends, countRecvs, eq_self_iff_true, if_true,
            Bool.false_eq_true, if_false] at *
          omega
        | false =>
          obtain ⟨frame, J, hsv, hc1⟩ :=
            sendMessage_noncmd_elim e c c1 pk cp none m hsm
          rw [hj] at hsv
          rw [show saveToPage e true [PyVal.bytes frame] (mkStore (vs.map e.pdumps)) =
                some (mkStore (vs.map e.pdumps ++
                  [PyVal.bytes frame].map e.pdumps)) from
              saveToPage_mkStore e [PyVal.bytes frame] (vs.map e.pdumps)] at hsv
          have hJ : J = mkStore (vs.map e.pdumps ++ [e.pdumps (PyVal.bytes frame)]) := by
            simpa using hsv.symm
          have hrec := ih c1 (vs ++ [PyVal.bytes frame])
            (by rw [hc1]; simp [sendSucc, hJ])
            (by rw [hc1]; simp [sendSucc, hl])
            cf hx
          refine ⟨hrec.1, ?_⟩
          have h2 := hrec.2
          have hlen : c1.dataLog.length = c.dataLog.length + 1 := by
            rw [hc1]; simp [sendSucc]
          simp only [countSends, countRecvs, eq_self_iff_true, if_true,
            Bool.false_eq_true, if_false] at *
          omega
    | recv =>
      simp only [conjExec, Option.bind_eq_bind] at hx
      cases hsm : Conjour.awaitMessage e c with
      | none => simp [hsm] at hx
      | some c1 =>
        simp only [hsm, Option.some_bind] at hx
        obtain ⟨d, rest, pr, J, hdl, hld, hsv, hc1⟩ := awaitMessage_elim e c c1 hsm
        rw [hj, loadFromPage_mkStore e h vs] at hld
        have hpr : pr = (vs, (⟨[], 0, []⟩ : PageStore)) := by
          simpa using hld.symm
        subst hpr
        rw [show ((vs, (⟨[], 0, []⟩ : PageStore)).2 : PageStore) = mkStore [] from rfl] at hsv
        rw [saveToPage_mkStore] at hsv
        have hJ : J = mkStore ((vs.drop 1).map e.pdumps) := by
          simpa using hsv.symm
        have hrec := ih c1 (vs.drop 1)
          (by rw [hc1]; simp [awaitSucc, hJ])
          (by
            rw [hc1]
            have : rest.length + 1 = vs.length := by
              rw [← hl, hdl]; simp
            simp [awaitSucc]
            omega)
          cf hx
        refine ⟨hrec.1, ?_⟩
        have h2 := hrec.2
        have hlen : c1.dataLog.length + 1 = c.dataLog.length := by
          rw [hc1, hdl]; simp [awaitSucc]
        simp only [countSends, countRecvs, eq_self_iff_true, if_true,
          Bool.false_eq_true, if_false] at *
        omega
theorem cmsgSpace_pos (n : Nat) : 0 < cmsgSpace n := by
  have h16 : 16 ≤ 8 * ((n + 7) / 8) + 16 := Nat.le_add_left 16 (8 * ((n + 7) / 8))
  simp only [cmsgSpace]
  omega

theorem freeSpace_sendSucc (c : Conjour) (frame : List Byte) (J : PageStore) :
    (sendSucc c frame J).freeSpace ≤ c.freeSpace ∧
    (c.isServer = false → 0 < c.freeSpace →
      (sendSucc c frame J).freeSpace < c.freeSpace) := by
  have hk : 0 < cmsgSpace frame.length := cmsgSpace_pos frame.length
  have hserv : (sendSucc c frame J).isServer = c.isServer := rfl
  have hbuf : (sendSucc c frame J).sndbuf = c.sndbuf := rfl
  have hlog : (sendSucc c frame J).dataLog = c.dataLog ++ [cmsgSpace frame.length] := rfl
  constructor
  · simp only [Conjour.freeSpace, hserv, hbuf, hlog]
    apply max_le_max _ le_rfl
    apply sub_le_sub_left
    have h1 : (c.dataLog.drop (1 - (if c.isServer then 0 else 1))).sum ≤
        ((c.dataLog ++ [cmsgSpace frame.length]).drop
          (1 - (if c.isServer then 0 else 1))).sum := by
      rw [List.drop_append_eq_append_drop]
      simp
    exact_mod_cast h1
  · intro hsf hpos
    simp only [Conjour.freeSpace, hserv, hbuf, hlog, hsf] at *
    simp only [Bool.false_eq_true, if_false, Nat.sub_self, List.drop_zero] at *
    have hBs : 0 < 19 * (c.sndbuf : Int) / 20 - (c.dataLog.sum : Int) := by
      rcases lt_max_iff.mp hpos with h1 | h1
      · exact h1
      · exact absurd h1 (lt_irrefl 0)
    rw [max_eq_left (le_of_lt hBs)]
    apply max_lt
    · have hki : (0 : Int) < (cmsgSpace frame.length : Int) := by exact_mod_cast hk
      have hsum : ((c.dataLog ++ [cmsgSpace frame.length]).sum : Int) =
          (c.dataLog.sum : Int) + (cmsgSpace frame.length : Int) := by
        push_cast [List.sum_append]
        simp
      rw [hsum]
      omega
    · exact hBs
theorem erase_get_nodup :
    ∀ (js : List Nat) (i : Nat) (h : i < js.length), js.Nodup →
      js.erase (js.get ⟨i, h⟩) = js.eraseIdx i := by
  intro js
  induction js with
  | nil => intro i h; simp at h
  | cons x t ih =>
    intro i h hn
    cases i with
    | zero => simp [List.erase_cons_head]
    | succ i =>
      have hx : x ∉ t := by
        simp [List.nodup_cons] at hn
        exact hn.1
      have hi : i < t.length := by simpa using h
      have hmem : t.get ⟨i, hi⟩ ∈ t := t.get_mem i hi
      have hne : ¬ x = t.get ⟨i, hi⟩ := by
        intro hcontra
        exact hx (hcontra ▸ hmem)
      have hget : (x :: t).get ⟨i + 1, h⟩ = t.get ⟨i, hi⟩ := rfl
      rw [hget]
      rw [List.erase_cons_tail]
      · rw [ih i hi (by simp [List.nodup_cons] at hn; exact hn.2)]
        rfl
      · simpa using hne
theorem eraseIdx_drop_succ :
    ∀ (js : List Nat) (i : Nat), (js.eraseIdx i).drop (i + 1) = js.drop (i + 2) := by
  intro js
  induction js with
  | nil => intro i; simp [List.eraseIdx]
  | cons x t ih =>
    intro i
    cases i with
    | zero => simp [List.eraseIdx]
    | succ i =>
      have h1 : (x :: t).eraseIdx (i + 1) = x :: t.eraseIdx i := rfl
      rw [h1]
      have h2 : (x :: t.eraseIdx i).drop (i + 1 + 1) = (t.eraseIdx i).drop (i + 1) := rfl
      rw [h2, ih i]
      rfl

theorem evens_drop (js : List Nat) (i : Nat) (h : i < js.length) :
    evens (js.drop i) = js.get ⟨i, h⟩ :: evens (js.drop (i + 2)) := by
  have h1 : js.drop i = js.get ⟨i, h⟩ :: js.drop (i + 1) := List.drop_eq_get_cons h
  rw [h1]
  cases h2 : js.drop (i + 1) with
  | nil =>
    have h3 : js.drop (i + 2) = [] := by
      have : js.drop (i + 2) = (js.drop (i + 1)).drop 1 := by
        rw [List.drop_drop]
      rw [this, h2]
      rfl
    rw [h3]
    rfl
  | cons y ys =>
    have h3 : js.drop (i + 2) = ys := by
      have : js.drop (i + 2) = (js.drop (i + 1)).drop 1 := by
        rw [List.drop_drop]
      rw [this, h2]
      rfl
    rw [h3]
    rfl
theorem zipRemoveGo_pairs :
    ∀ (ws : List Nat) (i : Nat) (js : List Nat), js.Nodup →
      (zipRemoveGo i ws js).1 = ws.zip (evens (js.drop i)) := by
  intro ws
  induction ws with
  | nil => intro i js hn; simp [zipRemoveGo]
  | cons w ws ih =>
    intro i js hn
    cases hj : js[i]? with
    | none =>
      have hlen : js.length ≤ i := by
        by_contra hcon
        push_neg at hcon
        rw [List.getElem?_eq_getElem hcon] at hj
        simp at hj
      have hdrop : js.drop i = [] := List.drop_eq_nil_of_le hlen
      simp [zipRemoveGo, hj, hdrop, evens]
    | some j =>
      have hi : i < js.length := by
        by_contra hcon
        push_neg at hcon
        rw [List.getElem?_eq_none hcon] at hj
        simp at hj
      have hget : js.get ⟨i, hi⟩ = j := by
        have := List.getElem?_eq_getElem hi
        rw [this] at hj
        simpa using hj
      have herase : js.erase j = js.eraseIdx i := by
        rw [← hget]
        exact erase_get_nodup js i hi hn
      have hnodup : (js.eraseIdx i).Nodup :=
        hn.sublist (List.eraseIdx_sublist js i)
      have hrec := ih (i + 1) (js.eraseIdx i) hnodup
      have hdrop2 : (js.eraseIdx i).drop (i + 1) = js.drop (i + 2) :=
        eraseIdx_drop_succ js i
      have hev : evens (js.drop i) = j :: evens (js.drop (i + 2)) := by
        rw [evens_drop js i hi, hget]
      simp only [zipRemoveGo, hj, herase]
      rw [hev]
      simp only [List.zip_cons_cons]
      rw [hrec, hdrop2]
theorem zipRemoveGo_rem_le :
    ∀ (ws : List Nat) (i : Nat) (js : List Nat),
      (zipRemoveGo i ws js).2.length ≤ js.length := by
  intro ws
  induction ws with
  | nil => intro i js; simp [zipRemoveGo]
  | cons w ws ih =>
    intro i js
    cases hj : js[i]? with
    | none => simp [zipRemoveGo, hj]
    | some j =>
      have hmem : j ∈ js := by
        have hi : i < js.length := by
          by_contra hcon
          push_neg at hcon
          rw [List.getElem?_eq_none hcon] at hj
          simp at hj
        rw [List.getElem?_eq_getElem hi] at hj
        have : js[i] = j := by simpa using hj
        rw [← this]
        exact List.getElem_mem hi
      have hlen : (js.erase j).length = js.length - 1 := List.length_erase_of_mem hmem
      have hpos : 0 < js.length := List.length_pos_of_mem hmem
      simp only [zipRemoveGo, hj]
      have := ih (i + 1) (js.erase j)
      omega

theorem idleRound_shrinks (ws : List Nat) (js : List Nat)
    (hw : ws ≠ []) (hj : js ≠ []) :
    (idleRound ws js).2.length < js.length := by
  cases ws with
  | nil => exact absurd rfl hw
  | cons w ws =>
    cases js with
    | nil => exact absurd rfl hj
    | cons j js =>
      have hj0 : (j :: js)[0]? = some j := by simp
      have herase : (j :: js).erase j = js := List.erase_cons_head j js
      simp only [idleRound, zipRemoveGo, hj0, herase]
      have := zipRemoveGo_rem_le ws (0 + 1) js
      simp only [List.length_cons]
      omega
theorem idlePass_exhaust :
    ∀ (fuel : Nat) (ws : List SWorker) (js : List Nat), js.length < fuel →
      (idlePass fuel ws js).2.2 ≠ [] →
      ((idlePass fuel ws js).2.1.filter (fun w => w.idle)) = [] := by
  intro fuel
  induction fuel with
  | zero => intro ws js hf; omega
  | succ fuel ih =>
    intro ws js hf hne
    by_cases hc : ((ws.filter (fun w => w.idle)).map (fun w => w.wid)) = [] ∨ js = []
    · simp only [idlePass, if_pos hc] at hne ⊢
      rcases hc with hc | hc
      · exact List.map_eq_nil.mp hc
      · exact absurd hc hne
    · simp only [idlePass, if_neg hc] at hne ⊢
      push_neg at hc
      have hshrink : (idleRound ((ws.filter (fun w => w.idle)).map (fun w => w.wid)) js).2.length
          < js.length := idleRound_shrinks _ _ hc.1 hc.2
      exact ih _ _ (by omega) hne

/-! ## The claims -/

/-- C1: the spec says `free_space = max(0, floor(0.95*B_remote) -
sum(send_log[start:]))` with `start = 0` for the server-side view and
`start = 1` otherwise (coordinator side excludes the first outstanding
frame).  The code computes `n = 1 - (not _is_server)`, which is the
opposite assignment: on the concrete coordinator-side endpoint `cStart`
(`_is_server = False`, `B_remote = 100`, `send_log = [10, 20]`) the code
yields `max(95 - 30, 0) = 65` while the claimed formula yields
`max(95 - 20, 0) = 75`.  This also contradicts the source's own inline
comment ("0 if server/master, 1 if client/slave") and docstring. -/
theorem C1_free_space_start_index :
    cStart.isServer = false ∧
    Conjour.freeSpace cStart = 65 ∧
    freeSpaceClaimed cStart = 75 := by
  refine ⟨rfl, ?_, ?_⟩ <;> decide

/-- C2: after `_purge_lost_worker` on a handshake-enabled coordinator
whose lost worker journaled the frame of job `b'A'` (bytes `[65]`), the
worker is removed and the lost counter incremented, but the pending-jobs
store does *not* hold the original job value: the journal stores
pickle-serialised frames (`save_to_page` default `as_pickle=True`),
purge loads them with `unpickle=False`, and `unpack` reads the header
flags out of the pickle-wrapper/length-prefix bytes, so the value saved
to pending-jobs is the mangled byte string `[0,0,0,0,0,0,0,0,65]`. -/
theorem C2_purge_mangles_jobs :
    purgeLostWorker extW coLost wLost =
      some ⟨true, false, [], ⟨[0, 0, 0, 0, 0, 0, 0, 0, 0, 65], 10, [10]⟩,
            ⟨[], 0, []⟩, 1⟩ ∧
    loadFromPage extW true ⟨[0, 0, 0, 0, 0, 0, 0, 0, 0, 65], 10, [10]⟩ =
      some ([PyVal.bytes [0, 0, 0, 0, 0, 0, 0, 0, 65]], ⟨[], 0, []⟩) ∧
    PyVal.bytes [0, 0, 0, 0, 0, 0, 0, 0, 65] ≠ PyVal.bytes [65] := by
  refine ⟨?_, ?_, ?_⟩ <;> decide

/-- C3 counterexample: with idle workers `0, 1` (in registration order)
and jobs `[10, 11, 12]` (in given order), the idle pass sends job 10 to
worker 0 but job *12* - not 11 - to worker 1, because `jobs.remove(job)`
mutates the list the `zip` iterator is walking.  The claim's one-to-one
pairing would have produced `[(0,10),(1,11)]`. -/
theorem C3_idle_pass_counterexample :
    idlePass 4 wsIdle [10, 11, 12] =
      ([(0, 10), (1, 12)], [⟨0, false⟩, ⟨1, false⟩], [11]) ∧
    ¬ (idlePass 4 wsIdle [10, 11, 12]).1 = [(0, 10), (1, 11)] := by
  refine ⟨?_, ?_⟩ <;> decide

/-- C3 amended: in each round of the idle pass (with pairwise-distinct
jobs) the `i`-th idle worker receives the job at index `2 i` of that
round's job list - the jobs at odd indices are skipped by the
`zip`/`remove` interaction and stay behind; and when the pass ends with
jobs remaining, no idle worker remains. -/
theorem C3_idle_pass_amended :
    (∀ (ws js : List Nat), js.Nodup →
        (idleRound ws js).1 = ws.zip (evens js)) ∧
    (∀ (fuel : Nat) (ws : List SWorker) (js : List Nat), js.length < fuel →
        (idlePass fuel ws js).2.2 ≠ [] →
        ((idlePass fuel ws js).2.1.filter (fun w => w.idle)) = []) := by
  constructor
  · intro ws js hn
    have := zipRemoveGo_pairs ws 0 js hn
    simpa [idleRound] using this
  · exact idlePass_exhaust

/-- C3 witness: the amended pairing and exhaustion at the concrete
counterexample input. -/
theorem C3_idle_pass_amended_witness :
    (idleRound [0, 1] [10, 11, 12]).1 = [0, 1].zip (evens [10, 11, 12]) ∧
    ((idlePass 4 wsIdle [10, 11, 12]).2.1.filter (fun w => w.idle)) = [] :=
  ⟨C3_idle_pass_amended.1 [0, 1] [10, 11, 12] (by decide),
   C3_idle_pass_amended.2 4 wsIdle [10, 11, 12] (by decide) (by decide)⟩

/-- C4: after the handshake exchange, both peers hold the same
`PICKLE` and `CONMAN` versions - the minima of the two declared values
(`pickle.HIGHEST_PROTOCOL` and `PROTO['CONMAN']` respectively) - and
each records the other's receive buffer size as its `_SNDBUF`. -/
theorem C4_handshake_convergence (a b : Conman) :
    (resolveHandshake a (buildHandshake b)).protoPickle =
      min a.highestPickle b.highestPickle ∧
    (resolveHandshake b (buildHandshake a)).protoPickle =
      min a.highestPickle b.highestPickle ∧
    (resolveHandshake a (buildHandshake b)).protoConman =
      min a.protoConman b.protoConman ∧
    (resolveHandshake b (buildHandshake a)).protoConman =
      min a.protoConman b.protoConman ∧
    (resolveHandshake a (buildHandshake b)).sndbuf = b.rcvbuf ∧
    (resolveHandshake b (buildHandshake a)).sndbuf = a.rcvbuf := by
  refine ⟨?_, ?_, ?_, ?_, rfl, rfl⟩ <;>
    simp [resolveHandshake, buildHandshake, Nat.min_comm]

/-- C5: `unpack` applied to the frame built by `pack(v, compress=c)` with
the 8-byte length prefix stripped returns exactly `(v, False)` - bytes
pass through, strings round-trip through UTF-8, other values through the
serialiser, and compression is inverted according to the header flag;
assuming the external libraries' round-trip laws. -/
theorem C5_pack_unpack_inverse (e : PyExt) (h : PyExtGood e)
    (v : PyVal) (c : Bool) :
    unpack e ((pack e false c none v).drop 8) = some (v, false) := by
  cases v <;> cases c <;>
    simp [pack, unpack, b2y, drop_le8, h.pickle_rt, h.bz2_rt, h.utf8_rt]

/-- C5 witness: the round-trip at the concrete codec `extW`, value
`obj 3`, compression on. -/
theorem C5_pack_unpack_inverse_witness :
    unpack extW ((pack extW false true none (PyVal.obj 3)).drop 8) =
      some (PyVal.obj 3, false) :=
  C5_pack_unpack_inverse extW extW_good (PyVal.obj 3) true

/-- C6: on a journaled endpoint driven from its fresh state by any
sequence of completed `send_message` / `await_message` operations, at
every quiescent point the length of the in-memory send-log equals the
number of entries in the journal paging store, and both equal the number
of non-command messages sent whose replies have not yet been received. -/
theorem C6_send_log_journal_invariant (e : PyExt) (h : PyExtGood e)
    (hp rcv : Nat) (ops : List ConjOp) (cf : Conjour)
    (hx : conjExec e (conjourInit hp rcv) ops = some cf) :
    cf.dataLog.length = cf.journal.lens.length ∧
    cf.dataLog.length + countRecvs ops = countSends ops := by
  have hrec := conjExec_inv e h ops (conjourInit hp rcv) [] rfl rfl cf hx
  refine ⟨hrec.1, ?_⟩
  have h2 := hrec.2
  simpa [conjourInit] using h2

/-- C6 witness: the invariant after a send of `b'A'` followed by a
completed receive on the concrete codec `extW`. -/
theorem C6_send_log_journal_invariant_witness :
    conjExec extW (conjourInit 0 0) opsSendRecv = some (conjourInit 0 0) ∧
    (conjourInit 0 0).dataLog.length = (conjourInit 0 0).journal.lens.length ∧
    (conjourInit 0 0).dataLog.length + countRecvs opsSendRecv =
      countSends opsSendRecv :=
  ⟨by decide,
   (C6_send_log_journal_invariant extW extW_good 0 0 opsSendRecv
      (conjourInit 0 0) (by decide)).1,
   (C6_send_log_journal_invariant extW extW_good 0 0 opsSendRecv
      (conjourInit 0 0) (by decide)).2⟩

/-- C7 counterexample: on the exhausted-budget endpoint `cZero`
(`_SNDBUF = 0`), a successful non-command send of `b'A'` leaves
`free_space` at 0 - it is *not* strictly smaller than before the send,
because `free_space` is clamped at 0. -/
theorem C7_free_space_not_strict :
    Conjour.sendMessage extW cZero false false false none (PyVal.bytes [65]) =
      some cZeroAfter ∧
    Conjour.freeSpace cZero = 0 ∧
    Conjour.freeSpace cZeroAfter = 0 ∧
    ¬ Conjour.freeSpace cZeroAfter < Conjour.freeSpace cZero := by
  refine ⟨?_, ?_, ?_, ?_⟩ <;> decide

/-- C7 amended: `free_space` is never negative; after any successful
non-command `send_message` it never increases; and it strictly decreases
whenever the endpoint is a coordinator-side view (`_is_server = False`)
and `free_space` was positive before the send. -/
theorem C7_free_space_amended (e : PyExt) (c cf : Conjour)
    (pk cp : Bool) (pkld : Option Bool) (m : PyVal)
    (hs : Conjour.sendMessage e c false pk cp pkld m = some cf) :
    (∀ d : Conjour, 0 ≤ Conjour.freeSpace d) ∧
    Conjour.freeSpace cf ≤ Conjour.freeSpace c ∧
    (c.isServer = false → 0 < Conjour.freeSpace c →
      Conjour.freeSpace cf < Conjour.freeSpace c) := by
  obtain ⟨frame, J, hsv, hc1⟩ := sendMessage_noncmd_elim e c cf pk cp pkld m hs
  subst hc1
  refine ⟨fun d => le_max_right _ 0, ?_, ?_⟩
  · exact (freeSpace_sendSucc c frame J).1
  · exact (freeSpace_sendSucc c frame J).2

/-- C7 witness: on the endpoint `cBudget` with positive budget, the send
of `b'A'` strictly decreases `free_space`. -/
theorem C7_free_space_amended_witness :
    Conjour.sendMessage extW cBudget false false false none (PyVal.bytes [65]) =
      some cBudgetAfter ∧
    0 ≤ Conjour.freeSpace cBudgetAfter ∧
    Conjour.freeSpace cBudgetAfter ≤ Conjour.freeSpace cBudget ∧
    Conjour.freeSpace cBudgetAfter < Conjour.freeSpace cBudget :=
  ⟨by decide,
   (C7_free_space_amended extW cBudget cBudgetAfter false false none
      (PyVal.bytes [65]) (by decide)).1 cBudgetAfter,
   (C7_free_space_amended extW cBudget cBudgetAfter false false none
      (PyVal.bytes [65]) (by decide)).2.1,
   (C7_free_space_amended extW cBudget cBudgetAfter false false none
      (PyVal.bytes [65]) (by decide)).2.2 rfl (by decide)⟩

/-- C8 counterexample: on the non-empty well-formed store `stPrior`
(holding one saved entry, the pickle of `b'A'`), `save_to_page([b'B'])`
followed by `load_from_page` returns the prior entry *and* `b'B'` - not
`[b'B']` alone as the claim states for every paging store. -/
theorem C8_page_round_trip_counterexample :
    (saveToPage extW true [PyVal.bytes [66]] stPrior).bind
        (fun st1 => loadFromPage extW true st1) =
      some ([PyVal.bytes [65], PyVal.bytes [66]], ⟨[], 0, []⟩) ∧
    [PyVal.bytes [65], PyVal.bytes [66]] ≠ [PyVal.bytes [66]] := by
  refine ⟨?_, ?_⟩ <;> decide

/-- C8 witness: the amended round-trip on the concrete store `stPrior`
with one prior entry and `xs = [b'B']`. -/
theorem C8_page_round_trip_amended_witness :
    (saveToPage extW true [PyVal.bytes [66]] stPrior).bind
        (fun st1 => loadFromPage extW true st1) =
      some ([PyVal.bytes [65]] ++ [PyVal.bytes [66]], ⟨[], 0, []⟩) :=
  C8_page_round_trip_amended extW extW_good stPrior [PyVal.bytes [66]]
    [PyVal.bytes [65]] (by decide) (by decide) (by decide)

/-- C9: `Coordinator.mount` begins with `if await_n <= 0:`; called with
the default `await_n=None`, Python 3 raises `TypeError` on the comparison
instead of performing the documented non-blocking accept pass.  For
integer arguments it does raise `ValueError` (the spec's
`InvalidArgument`) exactly when `await_n <= 0` and proceeds otherwise. -/
theorem C9_mount_default_type_error :
    mountCheck none none = MountCheck.typeError ∧
    mountCheck (some 0) (some 1) = MountCheck.valueError ∧
    mountCheck (some (-3)) none = MountCheck.valueError ∧
    mountCheck (some 2) (some 5) = MountCheck.proceed (some 5) 2 := by
  refine ⟨rfl, ?_, ?_, ?_⟩ <;> decide

/-- C10: every endpoint constructed by `accept_connection` for an
accepted peer has `_is_server = False` (only the listening endpoint that
performs the bind/listen sets `_is_server = True`), and every endpoint
with `_is_server = False` computes `free_space` over the full send-log
from index 0, including the first outstanding frame. -/
theorem C10_accept_child_not_server (L : Conjour) (hs : HandshakeMsg)
    (hp rcv : Nat) :
    (acceptConnection L hs hp rcv).2.isServer = false ∧
    (L.bound = false → (acceptConnection L hs hp rcv).1.isServer = true) ∧
    (∀ c : Conjour, c.isServer = false →
      Conjour.freeSpace c =
        max ((19 * (c.sndbuf : Int)) / 20 - (c.dataLog.sum : Int)) 0) := by
  refine ⟨rfl, ?_, ?_⟩
  · intro hb
    simp [acceptConnection, hb]
  · intro c hc
    simp [Conjour.freeSpace, hc]

/-- C10 witness: the accepted child of a fresh listener is not a server,
the listener becomes one, and the concrete coordinator-side endpoint
`cFromZero` budgets from index 0. -/
theorem C10_accept_child_not_server_witness :
    (acceptConnection (conjourInit 3 64) ⟨1, 2, 500⟩ 4 8).2.isServer = false ∧
    (acceptConnection (conjourInit 3 64) ⟨1, 2, 500⟩ 4 8).1.isServer = true ∧
    Conjour.freeSpace cFromZero =
      max ((19 * (cFromZero.sndbuf : Int)) / 20 - (cFromZero.dataLog.sum : Int)) 0 :=
  ⟨(C10_accept_child_not_server (conjourInit 3 64) ⟨1, 2, 500⟩ 4 8).1,
   (C10_accept_child_not_server (conjourInit 3 64) ⟨1, 2, 500⟩ 4 8).2.1 rfl,
   (C10_accept_child_not_server (conjourInit 3 64) ⟨1, 2, 500⟩ 4 8).2.2
     cFromZero rfl⟩
